import Mathlib

/-!
Verification of matterircd's bridge session engine (mm-go-irckit/userbridge.go)
and its Mattermost backend adapter, as a shallow embedding in Lean 4.

The embedding translates the Go source functions into pure Lean functions:
the virtual-IRC-server state consulted by the registry (`HasUserID`/`Add`,
whose implementation is not part of the given sources) is modelled from the
spec as an association list keyed by the backend user identifier; backend
and server lookups (`GetUser`, `Channel(id).String()`, configuration, ...)
become explicit environment records of functions; emitted IRC traffic and
membership mutations become explicit result lists.
-/

namespace Matterircd

/-- Model of bridge.UserInfo (bridge/bridge.go). Only the fields the verified
functions read are carried. -/
structure UserInfo where
  nick : String
  user : String
  real : String
  host : String
  me : Bool
  teamId : String
deriving DecidableEq, Repr

/-- stringInSlice as used by userbridge.go: membership test of a string in a
configured list. -/
def stringInSlice (a : String) (list : List String) : Bool :=
  list.any (fun b => b = a)

/-! ## Identity registry (userbridge.go createUserFromInfo / updateUserFromInfo)

`u.Srv.HasUserID` and `u.Srv.Add` belong to the virtual-IRC-server, whose
implementation is not among the given sources. -/

/-- Modelled from the spec: the virtual-IRC-server's ghost table behind
`server.add(ghost)` and `server.lookup-by-id(backendID) -> (ghost, found)`
(spec section 6), "maps backend user identifiers to IRC ghost identities".
An association list of (backend identifier, ghost) pairs, in registration
order. -/
abbrev RegState := List (String × UserInfo)

/-- Modelled from the spec: `server.lookup-by-id(backendID) -> (ghost, found)`:
first registered ghost whose backend identifier matches. -/
def hasUserID (s : RegState) (id : String) : Option UserInfo :=
  match s.find? (fun e => e.1 = id) with
  | some e => some e.2
  | none => none

/-- Modelled from the spec: `server.add(ghost)`: registers the ghost under its
backend identifier. -/
def regAdd (s : RegState) (ghost : UserInfo) : RegState :=
  s ++ [(ghost.user, ghost)]

/-- Model of the one IRC NICK message emitted by updateUserFromInfo. -/
structure NickMsg where
  fromNick : String
  newNick : String
deriving DecidableEq, Repr

/-- createUserFromInfo (userbridge.go:291-302): return the registered ghost for
info's backend identifier when present, otherwise build a ghost carrying
info and register it. Returns the ghost and the new server state. -/
def createUserFromInfo (s : RegState) (info : UserInfo) : UserInfo × RegState :=
  match hasUserID s info.user with
  | some ghost => (ghost, s)
  | none => (info, regAdd s info)

/-- In-place update of the first registered ghost with the given backend
identifier (the Go code mutates the ghost found by HasUserID). -/
def replaceFirst : RegState → String → UserInfo → RegState
  | [], _, _ => []
  | e :: rest, id, info =>
      if e.1 = id then (e.1, info) :: rest else e :: replaceFirst rest id info

/-- updateUserFromInfo (userbridge.go:267-289): when a ghost exists for info's
backend identifier, emit an IRC NICK message if its nick differs from info's,
then replace its stored profile with info; otherwise register a new ghost.
Returns the ghost, the emitted messages and the new server state. -/
def updateUserFromInfo (s : RegState) (info : UserInfo) :
    UserInfo × List NickMsg × RegState :=
  match hasUserID s info.user with
  | some ghost =>
      let msgs := if ghost.nick ≠ info.nick then [⟨ghost.nick, info.nick⟩] else []
      (info, msgs, replaceFirst s info.user info)
  | none => (info, [], regAdd s info)

/-- Number of ghosts registered for one backend identifier. -/
def countKey (s : RegState) (id : String) : Nat :=
  (s.filter (fun e => e.1 = id)).length

/-- One resolve or refresh call, as a step on the server state. -/
inductive RegCall where
  | resolve (info : UserInfo)
  | refresh (info : UserInfo)

/-- State reached after one registry call. -/
def regStep (s : RegState) : RegCall → RegState
  | .resolve info => (createUserFromInfo s info).2
  | .refresh info => (updateUserFromInfo s info).2.2

/-- Concrete user infos for witnesses. -/
def uA : UserInfo := ⟨"a", "u1", "", "", false, ""⟩

/-- Concrete user info for witnesses, same identifier as uA with another nick. -/
def uB : UserInfo := ⟨"b", "u1", "", "", false, ""⟩

end Matterircd

namespace Matterircd

/-! ## Registry lemmas -/

theorem hasUserID_cons_ne (e : String × UserInfo) (rest : RegState) (id : String)
    (he : ¬ e.1 = id) : hasUserID (e :: rest) id = hasUserID rest id := by
  unfold hasUserID
  rw [List.find?_cons_of_neg]
  simp [he]

theorem hasUserID_cons_eq (e : String × UserInfo) (rest : RegState) (id : String)
    (he : e.1 = id) : hasUserID (e :: rest) id = some e.2 := by
  unfold hasUserID
  rw [List.find?_cons_of_pos]
  simp [he]

theorem hasUserID_none_iff (s : RegState) (id : String) :
    hasUserID s id = none ↔ ∀ e ∈ s, ¬ e.1 = id := by
  induction s with
  | nil => simp [hasUserID, List.find?]
  | cons e rest ih =>
      by_cases he : e.1 = id
      · rw [hasUserID_cons_eq e rest id he]
        simp only [reduceCtorEq, false_iff, not_forall]
        exact ⟨e, by simp, by simp [he]⟩
      · rw [hasUserID_cons_ne e rest id he]
        rw [ih]
        constructor
        · intro h x hx
          rcases List.mem_cons.mp hx with h1 | h2
          · rw [h1]; exact he
          · exact h x h2
        · intro h x hx
          exact h x (List.mem_cons_of_mem e hx)

theorem countKey_regAdd (s : RegState) (g : UserInfo) (id : String) :
    countKey (regAdd s g) id = countKey s id + (if g.user = id then 1 else 0) := by
  unfold countKey regAdd
  rw [List.filter_append]
  simp only [List.length_append]
  by_cases h : g.user = id <;> simp [h]

theorem countKey_eq_zero_of_hasUserID_none (s : RegState) (id : String)
    (h : hasUserID s id = none) : countKey s id = 0 := by
  have hall := (hasUserID_none_iff s id).mp h
  unfold countKey
  rw [List.length_eq_zero, List.filter_eq_nil_iff]
  intro e he
  simpa using hall e he

theorem countKey_replaceFirst (s : RegState) (id : String) (info : UserInfo)
    (id' : String) : countKey (replaceFirst s id info) id' = countKey s id' := by
  induction s with
  | nil => rfl
  | cons e rest ih =>
      unfold replaceFirst
      by_cases h : e.1 = id
      · simp only [if_pos h]
        unfold countKey
        simp only [List.filter_cons]
        by_cases h2 : e.1 = id' <;> simp [h2]
      · simp only [if_neg h]
        unfold countKey at ih ⊢
        simp only [List.filter_cons]
        by_cases h2 : e.1 = id' <;> simp [h2, ih]

theorem hasUserID_replaceFirst_self (s : RegState) (id : String) (info : UserInfo)
    (g : UserInfo) (h : hasUserID s id = some g) :
    hasUserID (replaceFirst s id info) id = some info := by
  induction s with
  | nil => simp [hasUserID, List.find?] at h
  | cons e rest ih =>
      unfold replaceFirst
      by_cases he : e.1 = id
      · simp only [if_pos he]
        exact hasUserID_cons_eq (e.1, info) (rest) id he
      · simp only [if_neg he]
        rw [hasUserID_cons_ne e rest id he] at h
        rw [hasUserID_cons_ne e (replaceFirst rest id info) id he]
        exact ih h

theorem hasUserID_regAdd_self (s : RegState) (info : UserInfo)
    (h : hasUserID s info.user = none) :
    hasUserID (regAdd s info) info.user = some info := by
  induction s with
  | nil => simp [hasUserID, regAdd, List.find?]
  | cons e rest ih =>
      by_cases he : e.1 = info.user
      · rw [hasUserID_cons_eq e rest info.user he] at h
        simp at h
      · rw [hasUserID_cons_ne e rest info.user he] at h
        show hasUserID (e :: regAdd rest info) info.user = some info
        rw [hasUserID_cons_ne e (regAdd rest info) info.user he]
        exact ih h

end Matterircd

namespace Matterircd

/-- C1: `createUserFromInfo` returns the registered ghost when one exists for
info's backend identifier and otherwise registers exactly one new ghost (the
one it returns); every resolve or refresh step preserves "at most one ghost
per identifier"; and a second resolve with the same identifier returns the
ghost of the first. -/
theorem createUserFromInfo_resolve_spec (s : RegState) (info info' : UserInfo)
    (id : String) (huser : info'.user = info.user) :
    (∀ g, hasUserID s info.user = some g → createUserFromInfo s info = (g, s)) ∧
    (hasUserID s info.user = none →
      createUserFromInfo s info = (info, s ++ [(info.user, info)])) ∧
    (∀ c : RegCall, countKey s id ≤ 1 → countKey (regStep s c) id ≤ 1) ∧
    ((createUserFromInfo (createUserFromInfo s info).2 info').1 =
      (createUserFromInfo s info).1) := by
  refine ⟨?_, ?_, ?_, ?_⟩
  · intro g hg
    unfold createUserFromInfo
    rw [hg]
  · intro hn
    unfold createUserFromInfo
    rw [hn]
    rfl
  · intro c hc
    cases c with
    | resolve i =>
        show countKey (createUserFromInfo s i).2 id ≤ 1
        unfold createUserFromInfo
        cases hg : hasUserID s i.user with
        | some g => exact hc
        | none =>
            simp only
            rw [countKey_regAdd]
            by_cases h : i.user = id
            · have hz := countKey_eq_zero_of_hasUserID_none s i.user hg
              rw [h] at hz
              simp [h, hz]
            · simpa [h] using hc
    | refresh i =>
        show countKey (updateUserFromInfo s i).2.2 id ≤ 1
        unfold updateUserFromInfo
        cases hg : hasUserID s i.user with
        | some g => simpa [countKey_replaceFirst] using hc
        | none =>
            simp only
            rw [countKey_regAdd]
            by_cases h : i.user = id
            · have hz := countKey_eq_zero_of_hasUserID_none s i.user hg
              rw [h] at hz
              simp [h, hz]
            · simpa [h] using hc
  · unfold createUserFromInfo
    cases hg : hasUserID s info.user with
    | some g =>
        simp only
        rw [huser, hg]
    | none =>
        simp only
        rw [huser]
        rw [hasUserID_regAdd_self s info hg]

/-- Witness for C1 at concrete inputs. -/
theorem createUserFromInfo_resolve_spec_witness :
    (hasUserID [] uA.user = none →
      createUserFromInfo [] uA = (uA, [] ++ [(uA.user, uA)])) ∧
    (createUserFromInfo (createUserFromInfo [] uA).2 uB).1 =
      (createUserFromInfo [] uA).1 := by
  have h := createUserFromInfo_resolve_spec [] uA uB "u1" rfl
  exact ⟨fun hn => h.2.1 hn, h.2.2.2⟩

/-- C8: with a ghost registered for info's backend identifier, refresh
(updateUserFromInfo) emits exactly one NICK message when the stored nick
differs from info's (carrying info's nick as the new nick), and emits none
when they are equal; in both cases the stored profile snapshot is replaced by
info, so the ghost's stored nick afterwards equals info's nick. -/
theorem updateUserFromInfo_refresh_spec (s : RegState) (info g : UserInfo)
    (hfound : hasUserID s info.user = some g) :
    (g.nick ≠ info.nick →
      (updateUserFromInfo s info).2.1 = [⟨g.nick, info.nick⟩]) ∧
    (g.nick = info.nick → (updateUserFromInfo s info).2.1 = []) ∧
    hasUserID (updateUserFromInfo s info).2.2 info.user = some info ∧
    (updateUserFromInfo s info).1 = info := by
  unfold updateUserFromInfo
  rw [hfound]
  refine ⟨?_, ?_, ?_, rfl⟩
  · intro hne
    simp [hne]
  · intro heq
    simp [heq]
  · exact hasUserID_replaceFirst_self s info.user info g hfound

/-- Witness for C8 at concrete inputs. -/
theorem updateUserFromInfo_refresh_spec_witness :
    (updateUserFromInfo [(uA.user, uA)] uB).2.1 = [⟨"a", "b"⟩] ∧
    hasUserID (updateUserFromInfo [(uA.user, uA)] uB).2.2 "u1" = some uB := by
  have h := updateUserFromInfo_refresh_spec [(uA.user, uA)] uB uA rfl
  refine ⟨h.1 (by decide), h.2.2.1⟩

end Matterircd

namespace Matterircd

/-! ## Channel router (userbridge.go getMessageChannel / handleChannelMessageEvent)

`u.Srv.Channel(id)` yields the virtual-IRC-server channel object for an
identifier; the router only consults its display name `ch.String()` and its
identifier `ch.ID()`. The display-name lookup is carried as an environment
function; the channel object itself is represented by its identifier. -/

/-- Environment of getMessageChannel: the server's channel display names
(`Srv.Channel(id).String()`), the session owner's IRC nick (`u.Nick`), and the
configured joininclude/joinexclude lists for the active protocol. -/
structure RouterEnv where
  chanName : String → String
  meNick : String
  ji : List String
  je : List String

/-- getMessageChannel (userbridge.go:124-157), restricted to the channel it
returns. The membership side effects in its first half (group-channel
self-join and sender-ghost join) never change the local variable `ch`; the
returned channel is decided by the two redirect checks: a channel whose
display name is in joinexclude becomes "&messages", then a channel whose
display name is missing from a non-empty joininclude becomes "&messages". -/
def getMessageChannel (env : RouterEnv) (channelID : String) : String :=
  let ch := channelID
  let ch := if stringInSlice (env.chanName ch) env.je then "&messages" else ch
  let ch := if !stringInSlice (env.chanName ch) env.ji && env.ji.length > 0 then
      "&messages"
    else ch
  ch

/-- Model of bridge.ChannelMessageEvent. -/
structure ChannelMessageEvent where
  text : String
  channelID : String
  sender : UserInfo
  messageType : String
  channelType : String
deriving Repr

/-- One delivered PRIVMSG/NOTICE: the channel it is spoofed into, the
displayed sender nick, the text, and whether SpoofNotice was used. -/
structure Delivered where
  channel : String
  nick : String
  text : String
  isNotice : Bool
deriving Repr

/-- handleChannelMessageEvent (userbridge.go:159-183): route the event through
getMessageChannel, replace the nick by the owner's when the sender is the
session owner, suffix the nick with "/" and the origin channel's display name
when the destination is "&messages" and the event is not a direct message,
and spoof a notice or a message according to the event's message type. -/
def handleChannelMessageEvent (env : RouterEnv) (event : ChannelMessageEvent) :
    Delivered :=
  let nick := event.sender.nick
  let ch := getMessageChannel env event.channelID
  let nick := if event.sender.me then env.meNick else nick
  let nick := if event.channelType ≠ "D" ∧ ch = "&messages" then
      nick ++ "/" ++ env.chanName event.channelID
    else nick
  { channel := ch
    nick := nick
    text := event.text
    isNotice := event.messageType = "notice" }

end Matterircd

namespace Matterircd

/-- C2: a channel message whose channel display name is in joinexclude is
delivered to the overflow channel "&messages", and when the event is not a
direct message the displayed sender nick is suffixed with "/" and the origin
channel's display name. -/
theorem handleChannelMessageEvent_joinexclude (env : RouterEnv)
    (event : ChannelMessageEvent)
    (hex : stringInSlice (env.chanName event.channelID) env.je = true) :
    (handleChannelMessageEvent env event).channel = "&messages" ∧
    (event.channelType ≠ "D" →
      (handleChannelMessageEvent env event).nick =
        (if event.sender.me then env.meNick else event.sender.nick) ++ "/" ++
          env.chanName event.channelID) := by
  have hch : getMessageChannel env event.channelID = "&messages" := by
    simp only [getMessageChannel]
    rw [hex]
    by_cases h2 : (!stringInSlice (env.chanName "&messages") env.ji &&
        decide (env.ji.length > 0)) = true <;> simp [h2]
  constructor
  · simp only [handleChannelMessageEvent]
    exact hch
  · intro hd
    by_cases hme : event.sender.me <;>
      simp [handleChannelMessageEvent, hch, hd, hme]

/-- Witness for C2 at concrete inputs. -/
theorem handleChannelMessageEvent_joinexclude_witness :
    (handleChannelMessageEvent
        ⟨fun id => if id = "c1" then "#town" else id, "mynick", [], ["#town"]⟩
        ⟨"hello", "c1", uA, "", "O"⟩).channel = "&messages" ∧
    (handleChannelMessageEvent
        ⟨fun id => if id = "c1" then "#town" else id, "mynick", [], ["#town"]⟩
        ⟨"hello", "c1", uA, "", "O"⟩).nick = "a/#town" := by
  have h := handleChannelMessageEvent_joinexclude
    ⟨fun id => if id = "c1" then "#town" else id, "mynick", [], ["#town"]⟩
    ⟨"hello", "c1", uA, "", "O"⟩ (by decide)
  refine ⟨h.1, ?_⟩
  have h2 := h.2 (by decide)
  simpa [uA] using h2

/-- C3: when joininclude is non-empty and the channel's display name is absent
from it, the message is delivered to "&messages"; when joininclude is empty
only the joinexclude check can redirect; and the joinexclude check takes
precedence, sending every excluded channel to "&messages" whatever the
joininclude list holds. -/
theorem getMessageChannel_joininclude_spec (env : RouterEnv) (channelID : String) :
    (env.ji ≠ [] → stringInSlice (env.chanName channelID) env.ji = false →
      getMessageChannel env channelID = "&messages") ∧
    (env.ji = [] →
      getMessageChannel env channelID =
        (if stringInSlice (env.chanName channelID) env.je then "&messages"
          else channelID)) ∧
    (stringInSlice (env.chanName channelID) env.je = true →
      getMessageChannel env channelID = "&messages") := by
  refine ⟨?_, ?_, ?_⟩
  · intro hne hni
    have hlen : 0 < env.ji.length := List.length_pos.mpr hne
    simp only [getMessageChannel]
    by_cases hje : stringInSlice (env.chanName channelID) env.je = true
    · rw [hje]
      by_cases h2 : (!stringInSlice (env.chanName "&messages") env.ji &&
          decide (env.ji.length > 0)) = true <;> simp [h2]
    · rw [if_neg hje]
      rw [if_pos]
      rw [hni]
      simpa using hlen
  · intro hnil
    simp only [getMessageChannel]
    rw [hnil]
    by_cases hje : stringInSlice (env.chanName channelID) env.je = true <;>
      simp [hje]
  · intro hje
    simp only [getMessageChannel]
    rw [hje]
    by_cases h2 : (!stringInSlice (env.chanName "&messages") env.ji &&
        decide (env.ji.length > 0)) = true <;> simp [h2]

/-- Witness for C3 at concrete inputs. -/
theorem getMessageChannel_joininclude_spec_witness :
    (getMessageChannel ⟨fun id => "#" ++ id, "me", ["#inc"], []⟩ "other" =
      "&messages") ∧
    (getMessageChannel ⟨fun id => "#" ++ id, "me", [], []⟩ "other" = "other") ∧
    (getMessageChannel ⟨fun id => "#" ++ id, "me", ["#other"], ["#other"]⟩
      "other" = "&messages") := by
  refine ⟨?_, ?_, ?_⟩
  · exact (getMessageChannel_joininclude_spec
      ⟨fun id => "#" ++ id, "me", ["#inc"], []⟩ "other").1 (by decide) (by decide)
  · have h := (getMessageChannel_joininclude_spec
      ⟨fun id => "#" ++ id, "me", [], []⟩ "other").2.1 rfl
    simpa using h
  · exact (getMessageChannel_joininclude_spec
      ⟨fun id => "#" ++ id, "me", ["#other"], ["#other"]⟩ "other").2.2 (by decide)

end Matterircd

namespace Matterircd

/-! ## String helpers shared by the embedding -/

/-- Model of Go strings.Split(s, "\n") on the character list: split at every
newline; the result always has at least one (possibly empty) part. -/
def splitListOnNl : List Char → List (List Char)
  | [] => [[]]
  | c :: cs =>
      let r := splitListOnNl cs
      if c = '\n' then [] :: r
      else
        match r with
        | [] => [[c]]
        | h :: t => (c :: h) :: t

/-- Go strings.Split(s, "\n") as a String operation. -/
def splitLines (s : String) : List String :=
  (splitListOnNl s.data).map (fun cs => String.mk cs)

/-- Character-list helper: pat occurs at the start of s. -/
def isPrefCh : List Char → List Char → Bool
  | [], _ => true
  | _ :: _, [] => false
  | a :: pat, b :: s => a = b && isPrefCh pat s

/-- Character-list helper: pat occurs somewhere in s. -/
def isSubCh (pat : List Char) : List Char → Bool
  | [] => isPrefCh pat []
  | c :: s => isPrefCh pat (c :: s) || isSubCh pat s

/-- Go strings.Contains. -/
def strContains (s sub : String) : Bool :=
  isSubCh sub.data s.data

theorem splitListOnNl_ne_nil (cs : List Char) : splitListOnNl cs ≠ [] := by
  induction cs with
  | nil => simp [splitListOnNl]
  | cons c rest ih =>
      unfold splitListOnNl
      by_cases h : c = '\n'
      · simp [h]
      · simp only [if_neg h]
        cases hr : splitListOnNl rest with
        | nil => simp
        | cons hd tl => simp

theorem splitLines_ne_nil (s : String) : splitLines s ≠ [] := by
  unfold splitLines
  simpa using splitListOnNl_ne_nil s.data

/-! ## Backfill replay (userbridge.go addUserToChannelWorker:395-423)

The backend post list (`model.PostList`) is modelled as its Order slice of
post identifiers (newest first) and its Posts map, a function from identifier
to post. Time formatting (`time.Unix` plus `Format "2006-01-02"` /
`Format "15:04"`) and the backend's `GetUser` are carried as environment
functions. -/

/-- Post type constant model.POST_JOIN_LEAVE. -/
def postJoinLeave : String := "system_join_leave"

/-- Post type constant model.POST_JOIN_CHANNEL. -/
def postJoinChannel : String := "system_join_channel"

/-- Model of one post property value (`interface\x7b\x7d` in Go); only the
shapes the adapter inspects are distinguished: booleans, strings, and a
slack-attachment list reduced to its fallback strings. -/
inductive PropV where
  | pbool (b : Bool)
  | pstr (s : String)
  | pattach (fallbacks : List String)
  | pother
deriving DecidableEq, Repr

/-- Model of model.Post with the fields the verified code reads. -/
structure MMPost where
  userId : String
  typ : String
  message : String
  channelId : String
  parentId : String
  hasReactions : Bool
  createAt : Int
  deleteAt : Int
  fileIds : List String
  props : List (String × PropV)
deriving Repr

/-- Model of model.PostList: Order is newest-first post identifiers, Posts
maps identifiers to posts. -/
structure MMPostList where
  order : List String
  posts : String → MMPost

/-- Environment of the replay loop: the two time.Format calls applied to a
post's CreateAt millisecond timestamp, and the backend GetUser lookup. -/
structure ReplayEnv where
  fmtDate : Int → String
  fmtTime : Int → String
  getUser : String → UserInfo

/-- One spoof call made during replay: the day marker
(`spoof("matterircd", "Replaying since <date>")`) or a message line
(`spoof(nick, "[<time>] <segment>")`). -/
inductive ReplayOut where
  | marker (date : String)
  | line (nick text : String)
deriving DecidableEq, Repr

/-- The inner loop over the newline-separated segments of one post's message
(userbridge.go:411-422): before each segment, when the post's date differs
from prevDate a day marker is emitted and prevDate becomes the date; then the
segment's line is emitted. Returns the outputs and the final prevDate. -/
def replaySegs (env : ReplayEnv) (p : MMPost) :
    List String → String → List ReplayOut × String
  | [], prevDate => ([], prevDate)
  | seg :: rest, prevDate =>
      let date := env.fmtDate p.createAt
      let nick := (env.getUser p.userId).nick
      let lineOut := ReplayOut.line nick ("[" ++ env.fmtTime p.createAt ++ "] " ++ seg)
      if date ≠ prevDate then
        let next := replaySegs env p rest date
        (ReplayOut.marker date :: lineOut :: next.1, next.2)
      else
        let next := replaySegs env p rest prevDate
        (lineOut :: next.1, next.2)

/-- The outer loop of addUserToChannelWorker over the remaining (already
reversed) Order entries: posts of type POST_JOIN_LEAVE and posts whose
DeleteAt exceeds their CreateAt are skipped; any other post's message is
split on newlines and replayed, threading prevDate. -/
def replayGo (env : ReplayEnv) (pl : MMPostList) :
    List String → String → List ReplayOut
  | [], _ => []
  | pid :: rest, prevDate =>
      let p := pl.posts pid
      if p.typ = postJoinLeave then replayGo env pl rest prevDate
      else if p.deleteAt > p.createAt then replayGo env pl rest prevDate
      else
        let step := replaySegs env p (splitLines p.message) prevDate
        step.1 ++ replayGo env pl rest step.2

/-- The whole replay of one channel: traverse Order in reverse (the backend
returns newest first) starting from an empty prevDate. -/
def replayChannel (env : ReplayEnv) (pl : MMPostList) : List ReplayOut :=
  replayGo env pl pl.order.reverse ""

/-- A post survives the two skip checks of the replay loop. -/
def keptPost (p : MMPost) : Bool :=
  if p.typ = postJoinLeave then false
  else if p.deleteAt > p.createAt then false
  else true

/-- The backend's post list in oldest-first order, restricted to the posts
the replay loop keeps. -/
def replayedPosts (pl : MMPostList) : List MMPost :=
  (pl.order.reverse.map pl.posts).filter keptPost

/-- The message lines one kept post contributes: one line per
newline-separated segment of its message. -/
def postLines (env : ReplayEnv) (p : MMPost) : List ReplayOut :=
  (splitLines p.message).map (fun seg =>
    ReplayOut.line (env.getUser p.userId).nick
      ("[" ++ env.fmtTime p.createAt ++ "] " ++ seg))

/-- Selects the message lines of a replay output. -/
def isLine : ReplayOut → Bool
  | .line _ _ => true
  | .marker _ => false

/-- The message lines of a replay output, markers removed. -/
def lineOuts (outs : List ReplayOut) : List ReplayOut :=
  outs.filter isLine

/-- The dates of the day markers of a replay output, in emission order. -/
def markerDates (outs : List ReplayOut) : List String :=
  outs.filterMap (fun o =>
    match o with
    | .marker d => some d
    | .line _ _ => none)

/-- The day markers a date sequence produces: starting from a previous date,
each date differing from its predecessor yields one marker. -/
def dayMarkers : String → List String → List String
  | _, [] => []
  | prev, d :: ds => if d = prev then dayMarkers d ds else d :: dayMarkers d ds

/-- The per-post dates of the kept posts, oldest first. -/
def replayedDates (env : ReplayEnv) (pl : MMPostList) : List String :=
  (replayedPosts pl).map (fun p => env.fmtDate p.createAt)

end Matterircd

namespace Matterircd

/-! ## Backfill worker and channel synchronization
(userbridge.go createSpoof:350-370, addUserToChannelWorker:372-429,
syncChannel:463-486, mayJoin:488-512) -/

/-- Model of bridge.ChannelInfo. -/
structure ChannelInfo where
  name : String
  id : String
  teamId : String
deriving DecidableEq, Repr

/-- Where a worker's spoof emitter sends its lines: the owner's direct-message
window (MsgSpoofUser) or a channel's SpoofMessage. -/
inductive SpoofTarget where
  | dm
  | channel (id : String)
deriving DecidableEq, Repr

/-- One externally visible effect of the backfill worker or of syncChannel. -/
inductive Action where
  | addGhosts (users : List UserInfo)
  | joinUsersTo (channelID : String) (users : List UserInfo)
  | joinOwner (channelID : String)
  | setTopic (channelID : String)
  | resolveUser (userID : String)
  | spoofLine (target : SpoofTarget) (nick text : String)
  | updateLastViewed (channelID : String)
deriving DecidableEq, Repr

/-- Environment of the worker: server channel display names, the router
lists, current owner membership, and the backend bridge calls it makes. -/
structure WorkerEnv where
  chanName : String → String
  ji : List String
  je : List String
  ownerIn : String → Bool
  getChannelUsers : String → Option (List UserInfo)
  meTeamId : String
  prefixMainTeam : Bool
  teamName : String → String
  lastViewedAt : String → Int
  getPostsSince : String → Int → Option MMPostList
  disableAutoView : Bool
  replay : ReplayEnv

/-- mayJoin (userbridge.go:488-512): allowed when the channel's display name
is in joininclude; else when it is not in joinexclude and joininclude is
empty; else when joininclude or joinexclude is empty; otherwise denied. -/
def mayJoin (env : WorkerEnv) (channelID : String) : Bool :=
  let name := env.chanName channelID
  if stringInSlice name env.ji then true
  else if stringInSlice name env.je = false ∧ env.ji.length = 0 then true
  else if env.ji.length = 0 ∨ env.je.length = 0 then true
  else false

/-- syncChannel (userbridge.go:463-486): fetch the channel's member list
(returning early on error), register the non-owner members as ghosts, join
them into "&users" and into the channel, then join the owner and set the
topic when the owner is absent and mayJoin allows it. -/
def syncChannel (env : WorkerEnv) (id name : String) : List Action :=
  match env.getChannelUsers id with
  | none => []
  | some users =>
      let batchUsers := users.filter (fun ui => !ui.me)
      [Action.addGhosts batchUsers,
        Action.joinUsersTo "&users" batchUsers,
        Action.joinUsersTo id batchUsers] ++
      (if env.ownerIn id = false ∧ mayJoin env id = true then
        [Action.joinOwner id, Action.setTopic id]
      else [])

/-- createSpoof (userbridge.go:350-370): a channel whose backend name holds
"__" is a direct-message channel — resolve the counterpart user from the
name's first component and return the direct-message emitter; otherwise
prefix the display name with the team name when the channel is from another
team or prefixmainteam is set, synchronize the channel, and return its
channel emitter. The `name` argument of syncChannel is that display name. -/
def createSpoof (env : WorkerEnv) (mmchannel : ChannelInfo) :
    List Action × SpoofTarget :=
  if strContains mmchannel.name "__" then
    let userID := (mmchannel.name.splitOn "__").headD ""
    ([Action.resolveUser userID], SpoofTarget.dm)
  else
    let channelName :=
      if mmchannel.teamId ≠ env.meTeamId ∨ env.prefixMainTeam then
        env.teamName mmchannel.teamId ++ "/" ++ mmchannel.name
      else mmchannel.name
    (syncChannel env mmchannel.id channelName, SpoofTarget.channel mmchannel.id)

/-- The body of addUserToChannelWorker (userbridge.go:372-429) for one
dequeued channel: build the spoof emitter (this is where syncChannel runs),
then read the last-viewed timestamp and stop if it is zero; fetch the posts
since then and stop if none are returned; otherwise replay them through the
emitter and, unless disableautoview is set, advance the watermark. -/
def addUserToChannelWorkerStep (env : WorkerEnv) (brchannel : ChannelInfo) :
    List Action :=
  let spoofActs := createSpoof env brchannel
  let since := env.lastViewedAt brchannel.id
  if since = 0 then spoofActs.1
  else
    match env.getPostsSince brchannel.id since with
    | none => spoofActs.1
    | some postlist =>
        spoofActs.1 ++
        (replayChannel env.replay postlist).map
          (fun o =>
            match o with
            | .marker d =>
                Action.spoofLine spoofActs.2 "matterircd" ("Replaying since " ++ d)
            | .line nick text => Action.spoofLine spoofActs.2 nick text) ++
        (if env.disableAutoView = false then
          [Action.updateLastViewed brchannel.id]
        else [])

end Matterircd

namespace Matterircd

/-! ## Replay lemmas -/

theorem lineOuts_replaySegs (env : ReplayEnv) (p : MMPost) (segs : List String)
    (prev : String) :
    lineOuts (replaySegs env p segs prev).1 =
      segs.map (fun seg =>
        ReplayOut.line (env.getUser p.userId).nick
          ("[" ++ env.fmtTime p.createAt ++ "] " ++ seg)) := by
  unfold lineOuts
  induction segs generalizing prev with
  | nil => rfl
  | cons seg rest ih =>
      simp only [replaySegs]
      by_cases h : env.fmtDate p.createAt = prev
      · rw [if_neg (by simpa using h)]
        simp only [List.filter_cons, List.map_cons]
        simp [isLine, ih prev]
      · rw [if_pos h]
        simp only [List.filter_cons, List.map_cons]
        simp [isLine, ih (env.fmtDate p.createAt)]

theorem snd_replaySegs (env : ReplayEnv) (p : MMPost) (segs : List String)
    (prev : String) (hne : segs ≠ []) :
    (replaySegs env p segs prev).2 = env.fmtDate p.createAt := by
  induction segs generalizing prev with
  | nil => exact absurd rfl hne
  | cons seg rest ih =>
      simp only [replaySegs]
      by_cases h : env.fmtDate p.createAt = prev
      · rw [if_neg (by simpa using h)]
        cases hr : rest with
        | nil => simp [replaySegs, h]
        | cons a b =>
            rw [hr] at ih
            exact ih prev (by simp)
      · rw [if_pos h]
        cases hr : rest with
        | nil => simp [replaySegs]
        | cons a b =>
            rw [hr] at ih
            exact ih (env.fmtDate p.createAt) (by simp)

theorem markerDates_replaySegs_same (env : ReplayEnv) (p : MMPost)
    (segs : List String) :
    markerDates (replaySegs env p segs (env.fmtDate p.createAt)).1 = [] := by
  induction segs with
  | nil => rfl
  | cons seg rest ih =>
      simp only [replaySegs]
      rw [if_neg (by simp)]
      simpa [markerDates] using ih

theorem markerDates_replaySegs (env : ReplayEnv) (p : MMPost) (segs : List String)
    (prev : String) (hne : segs ≠ []) :
    markerDates (replaySegs env p segs prev).1 =
      (if env.fmtDate p.createAt = prev then [] else [env.fmtDate p.createAt]) := by
  cases segs with
  | nil => exact absurd rfl hne
  | cons seg rest =>
      simp only [replaySegs]
      by_cases h : env.fmtDate p.createAt = prev
      · rw [if_pos h, if_neg (by simpa using h)]
        have hsame := markerDates_replaySegs_same env p rest
        rw [h] at hsame
        simpa [markerDates] using hsame
      · rw [if_neg h, if_pos h]
        simpa [markerDates] using markerDates_replaySegs_same env p rest

theorem lineOuts_append (a b : List ReplayOut) :
    lineOuts (a ++ b) = lineOuts a ++ lineOuts b := by
  simp [lineOuts, List.filter_append]

theorem markerDates_append (a b : List ReplayOut) :
    markerDates (a ++ b) = markerDates a ++ markerDates b := by
  simp [markerDates, List.filterMap_append]

theorem lineOuts_replayGo (env : ReplayEnv) (pl : MMPostList) (ids : List String)
    (prev : String) :
    lineOuts (replayGo env pl ids prev) =
      ((ids.map pl.posts).filter keptPost).bind (postLines env) := by
  induction ids generalizing prev with
  | nil => rfl
  | cons pid rest ih =>
      simp only [replayGo]
      by_cases h1 : (pl.posts pid).typ = postJoinLeave
      · rw [if_pos h1, ih prev]
        simp [keptPost, h1]
      · rw [if_neg h1]
        by_cases h2 : (pl.posts pid).deleteAt > (pl.posts pid).createAt
        · rw [if_pos h2, ih prev]
          simp [keptPost, h1, h2]
        · rw [if_neg h2]
          rw [lineOuts_append]
          rw [lineOuts_replaySegs, ih]
          have hk : keptPost (pl.posts pid) = true := by
            simp [keptPost, h1, h2]
          simp [hk, postLines, List.cons_bind]

theorem markerDates_replayGo (env : ReplayEnv) (pl : MMPostList)
    (ids : List String) (prev : String) :
    markerDates (replayGo env pl ids prev) =
      dayMarkers prev
        (((ids.map pl.posts).filter keptPost).map (fun p => env.fmtDate p.createAt)) := by
  induction ids generalizing prev with
  | nil => rfl
  | cons pid rest ih =>
      simp only [replayGo]
      by_cases h1 : (pl.posts pid).typ = postJoinLeave
      · rw [if_pos h1, ih prev]
        simp [keptPost, h1]
      · rw [if_neg h1]
        by_cases h2 : (pl.posts pid).deleteAt > (pl.posts pid).createAt
        · rw [if_pos h2, ih prev]
          simp [keptPost, h1, h2]
        · rw [if_neg h2]
          rw [markerDates_append]
          have hk : keptPost (pl.posts pid) = true := by
            simp [keptPost, h1, h2]
          rw [markerDates_replaySegs env (pl.posts pid) _ prev
            (splitLines_ne_nil _)]
          rw [snd_replaySegs env (pl.posts pid) _ prev (splitLines_ne_nil _)]
          rw [ih]
          simp only [List.map_cons, List.filter_cons, hk, if_pos rfl]
          by_cases h : env.fmtDate (pl.posts pid).createAt = prev
          · rw [if_pos h]
            simp [dayMarkers, h]
          · rw [if_neg h]
            simp [dayMarkers, h]

theorem dayMarkers_mem (ds : List String) (q x : String) (hx : x ∈ ds)
    (hne : x ≠ q) : x ∈ dayMarkers q ds := by
  induction ds generalizing q with
  | nil => simp at hx
  | cons d rest ih =>
      rcases List.mem_cons.mp hx with h1 | h2
      · subst h1
        unfold dayMarkers
        rw [if_neg hne]
        exact List.mem_cons_self x _
      · unfold dayMarkers
        by_cases hd : d = q
        · rw [if_pos hd]
          exact ih d h2 (fun hxd => hne (hxd.trans hd))
        · rw [if_neg hd]
          by_cases hxd : x = d
          · rw [hxd]; exact List.mem_cons_self d _
          · exact List.mem_cons_of_mem d (ih d h2 hxd)

theorem dayMarkers_head_lt (ds : List String) (q h : String)
    (hall : ∀ x ∈ ds, q ≤ x) (hh : (dayMarkers q ds).head? = some h) :
    q < h := by
  induction ds generalizing q with
  | nil => simp [dayMarkers] at hh
  | cons d rest ih =>
      unfold dayMarkers at hh
      by_cases hd : d = q
      · rw [if_pos hd] at hh
        refine hd ▸ ih d ?_ hh
        intro x hx
        exact hd.symm ▸ hall x (List.mem_cons_of_mem d hx)
      · rw [if_neg hd] at hh
        simp only [List.head?_cons, Option.some.injEq] at hh
        subst hh
        exact lt_of_le_of_ne (hall d (List.mem_cons_self d rest)) (Ne.symm hd)

theorem dayMarkers_chain (ds : List String) (q : String)
    (hs : ds.Sorted (· ≤ ·)) : (dayMarkers q ds).Chain' (· < ·) := by
  induction ds generalizing q with
  | nil => simp [dayMarkers]
  | cons d rest ih =>
      have hrest : rest.Sorted (· ≤ ·) := (List.sorted_cons.mp hs).2
      have hall : ∀ x ∈ rest, d ≤ x := (List.sorted_cons.mp hs).1
      unfold dayMarkers
      by_cases hd : d = q
      · rw [if_pos hd]
        exact ih d hrest
      · rw [if_neg hd]
        refine List.chain'_cons'.mpr ⟨?_, ih d hrest⟩
        intro y hy
        exact dayMarkers_head_lt rest d y hall hy

theorem dayMarkers_nodup (ds : List String) (q : String)
    (hs : ds.Sorted (· ≤ ·)) : (dayMarkers q ds).Nodup := by
  have hchain := dayMarkers_chain ds q hs
  have hpw : (dayMarkers q ds).Pairwise (· < ·) :=
    List.chain'_iff_pairwise.mp hchain
  exact hpw.imp (fun hlt => ne_of_lt hlt)

end Matterircd

namespace Matterircd

/-- C4: for a channel with post list pl, the replayed message lines are
exactly the reversed (hence oldest-first) Order entries' posts, restricted to
posts that are not join/leave system posts and whose deletion timestamp does
not exceed their creation timestamp, each contributing one line per
newline-separated segment of its message, in order. -/
theorem replayChannel_lines_spec (env : ReplayEnv) (pl : MMPostList) :
    lineOuts (replayChannel env pl) = (replayedPosts pl).bind (postLines env) := by
  unfold replayChannel replayedPosts
  exact lineOuts_replayGo env pl pl.order.reverse ""

/-- C7: the "Replaying since" day markers of one channel's replay are exactly
one marker per date transition of the kept posts' (per-post, hence
independent of how many lines a post spans) date sequence starting from the
empty previous date; when no date formats to the empty string the first
post's date receives the first marker and every date receives a marker, and
when the dates are chronologically ordered no date receives two markers. -/
theorem replayChannel_dayMarker_spec (env : ReplayEnv) (pl : MMPostList)
    (h0 : ∀ d ∈ replayedDates env pl, d ≠ "")
    (hs : (replayedDates env pl).Sorted (· ≤ ·)) :
    markerDates (replayChannel env pl) = dayMarkers "" (replayedDates env pl) ∧
    (markerDates (replayChannel env pl)).head? = (replayedDates env pl).head? ∧
    (∀ d ∈ replayedDates env pl, d ∈ markerDates (replayChannel env pl)) ∧
    (markerDates (replayChannel env pl)).Nodup := by
  have hmk : markerDates (replayChannel env pl) =
      dayMarkers "" (replayedDates env pl) := by
    unfold replayChannel replayedDates replayedPosts
    rw [markerDates_replayGo]
  refine ⟨hmk, ?_, ?_, ?_⟩
  · rw [hmk]
    cases hd : replayedDates env pl with
    | nil => simp [dayMarkers]
    | cons d rest =>
        have : d ≠ "" := h0 d (by rw [hd]; exact List.mem_cons_self d rest)
        simp [dayMarkers, this]
  · intro d hd
    rw [hmk]
    exact dayMarkers_mem _ "" d hd (h0 d hd)
  · rw [hmk]
    exact dayMarkers_nodup _ "" hs

/-- Concrete replay environment for witnesses: a constant date rendering. -/
def envRW : ReplayEnv :=
  ⟨fun _ => "1970-01-01", fun _ => "00:00", fun _ => uA⟩

/-- Concrete two-post list for witnesses: newest-first order. -/
def plW : MMPostList :=
  ⟨["p2", "p1"], fun pid =>
    if pid = "p1" then ⟨"u1", "", "hello", "c", "", false, 0, 0, [], []⟩
    else ⟨"u1", "", "world", "c", "", false, 86400000, 0, [], []⟩⟩

/-- Witness for C7 at concrete inputs. -/
theorem replayChannel_dayMarker_spec_witness :
    markerDates (replayChannel envRW plW) = dayMarkers "" (replayedDates envRW plW) ∧
    (markerDates (replayChannel envRW plW)).head? = (replayedDates envRW plW).head? ∧
    (markerDates (replayChannel envRW plW)).Nodup := by
  have hdates : replayedDates envRW plW = ["1970-01-01", "1970-01-01"] := by decide
  have h := replayChannel_dayMarker_spec envRW plW
    (by rw [hdates]; decide)
    (by rw [hdates]; simp [List.sorted_cons])
  exact ⟨h.1, h.2.1, h.2.2.2⟩

end Matterircd

namespace Matterircd

/-! ## C5 and C6: worker skip behaviour and syncChannel join policy -/

/-- Concrete worker environment for C5: empty policy lists, owner nowhere a
member, member lists empty, every last-viewed timestamp zero. -/
def envC5 : WorkerEnv :=
  ⟨fun id => if id = "cid" then "#chan" else id, [], [],
    fun _ => false, fun _ => some [], "t1", false, fun _ => "team",
    fun _ => 0, fun _ _ => none, false, envRW⟩

/-- Concrete channel for C5: a regular channel of the owner's team. -/
def chC5 : ChannelInfo := ⟨"chan", "cid", "t1"⟩

/-- C5 counterexample: a channel whose backend last-viewed timestamp is zero
is not skipped entirely — the worker builds the spoof emitter first, and that
synchronizes the channel and joins the session owner into it. -/
theorem addUserToChannelWorkerStep_sinceZero_joins :
    envC5.lastViewedAt chC5.id = 0 ∧
    Action.joinOwner "cid" ∈ addUserToChannelWorkerStep envC5 chC5 := by
  decide

/-- C5 (amended): for a channel whose last-viewed timestamp is zero, the
worker's effects are exactly those of building the spoof emitter (createSpoof,
including its channel synchronization): no post line is replayed and the
watermark is not advanced; the owner may however still be joined by the
synchronization. -/
theorem addUserToChannelWorkerStep_sinceZero (env : WorkerEnv)
    (ch : ChannelInfo) (h : env.lastViewedAt ch.id = 0) :
    addUserToChannelWorkerStep env ch = (createSpoof env ch).1 ∧
    ∀ a ∈ addUserToChannelWorkerStep env ch,
      (∀ t n x, a ≠ Action.spoofLine t n x) ∧
      ∀ c, a ≠ Action.updateLastViewed c := by
  have heq : addUserToChannelWorkerStep env ch = (createSpoof env ch).1 := by
    simp [addUserToChannelWorkerStep, h]
  refine ⟨heq, ?_⟩
  rw [heq]
  intro a ha
  simp only [createSpoof] at ha
  by_cases hdm : strContains ch.name "__" = true
  · rw [if_pos hdm] at ha
    simp only [List.mem_singleton] at ha
    subst ha
    exact ⟨fun t n x => by simp, fun c => by simp⟩
  · rw [if_neg hdm] at ha
    simp only [syncChannel] at ha
    cases hg : env.getChannelUsers ch.id with
    | none =>
        rw [hg] at ha
        simp at ha
    | some users =>
        rw [hg] at ha
        simp only [List.mem_append, List.mem_cons, List.mem_singleton] at ha
        rcases ha with (rfl | rfl | rfl | hfalse) | hif
        · exact ⟨fun t n x => by simp, fun c => by simp⟩
        · exact ⟨fun t n x => by simp, fun c => by simp⟩
        · exact ⟨fun t n x => by simp, fun c => by simp⟩
        · simp at hfalse
        · by_cases hc : env.ownerIn ch.id = false ∧ mayJoin env ch.id = true
          · rw [if_pos hc] at hif
            simp only [List.mem_cons, List.not_mem_nil, or_false] at hif
            rcases hif with rfl | rfl
            · exact ⟨fun t n x => by simp, fun c => by simp⟩
            · exact ⟨fun t n x => by simp, fun c => by simp⟩
          · rw [if_neg hc] at hif
            simp at hif

/-- Witness for amended C5 at concrete inputs. -/
theorem addUserToChannelWorkerStep_sinceZero_witness :
    addUserToChannelWorkerStep envC5 chC5 = (createSpoof envC5 chC5).1 ∧
    ∀ a ∈ addUserToChannelWorkerStep envC5 chC5,
      (∀ t n x, a ≠ Action.spoofLine t n x) ∧
      ∀ c, a ≠ Action.updateLastViewed c :=
  addUserToChannelWorkerStep_sinceZero envC5 chC5 (by decide)

/-- Concrete worker environment for C6: empty joininclude, the channel's
display name in joinexclude, owner not a member. -/
def envC6 : WorkerEnv :=
  ⟨fun id => if id = "cid" then "#chan" else id, [], ["#chan"],
    fun _ => false, fun _ => some [], "t1", false, fun _ => "team",
    fun _ => 1, fun _ _ => none, false, envRW⟩

/-- C6 counterexample: with an empty joininclude list, a channel whose
display name is in joinexclude (and not in joininclude) is still joined by
syncChannel — mayJoin's third check allows any channel when either list is
empty. -/
theorem syncChannel_joinexclude_counterexample :
    stringInSlice (envC6.chanName "cid") envC6.je = true ∧
    stringInSlice (envC6.chanName "cid") envC6.ji = false ∧
    Action.joinOwner "cid" ∈ syncChannel envC6 "cid" "chan" := by
  decide

/-- C6 (amended): syncChannel joins the session owner exactly when the member
list is retrievable, the owner is not already a member, and mayJoin allows
it; and mayJoin allows exactly when the channel's display name is in
joininclude, or joininclude is empty, or joinexclude is empty — membership in
joinexclude only blocks the join when both lists are non-empty and the
channel is not in joininclude, which differs from the router's policy. -/
theorem syncChannel_mayJoin_spec (env : WorkerEnv) (id name : String) :
    (mayJoin env id = true ↔
      (stringInSlice (env.chanName id) env.ji = true ∨ env.ji = [] ∨
        env.je = [])) ∧
    (Action.joinOwner id ∈ syncChannel env id name ↔
      ((env.getChannelUsers id).isSome = true ∧ env.ownerIn id = false ∧
        mayJoin env id = true)) := by
  constructor
  · simp only [mayJoin]
    by_cases h1 : stringInSlice (env.chanName id) env.ji = true
    · simp [h1]
    · by_cases hji : env.ji = []
      · simp [h1, hji]
      · by_cases hje : env.je = []
        · by_cases h2 : stringInSlice (env.chanName id) env.je = false <;>
            simp [h1, hji, hje, h2, List.length_eq_zero]
        · by_cases h2 : stringInSlice (env.chanName id) env.je = false <;>
            simp [h1, hji, hje, h2, List.length_eq_zero]
  · simp only [syncChannel]
    cases hg : env.getChannelUsers id with
    | none => simp
    | some users =>
        by_cases hc : env.ownerIn id = false ∧ mayJoin env id = true
        · rw [if_pos hc]
          simp [hc.1, hc.2]
        · rw [if_neg hc]
          simp only [List.mem_append, List.mem_cons, List.mem_singleton,
            List.not_mem_nil, or_false, Option.isSome_some, true_and]
          constructor
          · intro hmem
            rcases hmem with h | h | h <;> simp at h
          · intro hrhs
            exact absurd hrhs hc

/-- Witness for amended C6 at concrete inputs. -/
theorem syncChannel_mayJoin_spec_witness :
    (mayJoin envC6 "cid" = true ↔
      (stringInSlice (envC6.chanName "cid") envC6.ji = true ∨ envC6.ji = [] ∨
        envC6.je = [])) ∧
    (Action.joinOwner "cid" ∈ syncChannel envC6 "cid" "chan" ↔
      ((envC6.getChannelUsers "cid").isSome = true ∧
        envC6.ownerIn "cid" = false ∧ mayJoin envC6 "cid" = true)) :=
  syncChannel_mayJoin_spec envC6 "cid" "chan"

end Matterircd

namespace Matterircd

/-! ## Mattermost adapter post handling
(bridge/mattermost: wsActionPostSkip, handleWsActionPost,
wsActionPostJoinLeave, handleFileEvent, MsgChannel/MsgUser) -/

/-- WebSocket event name model.WEBSOCKET_EVENT_POSTED. -/
def wsEventPosted : String := "posted"

/-- WebSocket event name model.WEBSOCKET_EVENT_POST_EDITED. -/
def wsEventPostEdited : String := "post_edited"

/-- Lookup in a props map; Go's two type assertions `.(bool)` / `.(string)`
correspond to matching the pbool / pstr shapes. -/
def lookupProp (props : List (String × PropV)) (k : String) : Option PropV :=
  (props.find? (fun e => e.1 = k)).map (fun e => e.2)

/-- Model of one inbound model.WebSocketEvent for a posted/edited post: the
event name, the decoded post (carrying its props), and the optional
"channel_type" entry of the event's data map. -/
structure WsEvent where
  event : String
  post : MMPost
  channelType : Option String
deriving Repr

/-- Environment of the adapter's post handler: the session owner's backend
identifier and UserInfo (GetMe), the backend lookups it performs, and the
HideReplies configuration flag. GetUser/GetUserByUsername never return nil
in the source (createUser maps a nil user to an empty UserInfo), hence total
functions here. -/
structure MMEnv where
  meUser : String
  meInfo : UserInfo
  getUser : String → UserInfo
  getUserByUsername : String → UserInfo
  getPost : String → Option MMPost
  getChannelName : String → String
  getFileLinks : List String → List String
  hideReplies : Bool

/-- Model of a normalized bridge.Event payload emitted by the adapter. -/
inductive BEventData where
  | channelMessage (text channelID : String) (sender : UserInfo)
      (messageType channelType : String) (files : List String)
  | directMessage (text : String) (sender receiver : UserInfo)
      (files : List String)
  | channelTopic (text channelID sender : String)
  | fileEvent (channelType channelID : String) (sender receiver : UserInfo)
      (files : List String)
  | channelAdd (adder : UserInfo) (added : List UserInfo) (channelID : String)
  | channelRemove (removed : List UserInfo) (channelID : String)
deriving DecidableEq, Repr

/-- wsActionPostSkip (mattermost adapter, part_000:507-529): an edited post
that already has reactions is skipped; a post from the session owner is
skipped when its props carry a boolean under "matterircd_"+owner-id (the
bridge's own outbound marker) or when it is the owner's own join/leave
message. -/
def wsActionPostSkip (env : MMEnv) (rmsg : WsEvent) : Bool :=
  let data := rmsg.post
  if rmsg.event = wsEventPostEdited ∧ data.hasReactions = true then true
  else if data.userId = env.meUser then
    match lookupProp data.props ("matterircd_" ++ env.meUser) with
    | some (PropV.pbool _) => true
    | _ =>
        if data.typ = postJoinLeave ∨ data.typ = postJoinChannel then true
        else false
  else false

/-- The regular expression `[a-zA-Z0-9_]*` applied to a webhook
override_username. -/
def validOverrideNick (s : String) : Bool :=
  s.data.all (fun c => c.isAlpha || c.isDigit || c == '_')

/-- wsActionPostJoinLeave (part_000:743-776): membership system posts become
channel_add / channel_remove events built from the adjacent usernames in the
post's props. -/
def wsActionPostJoinLeave (env : MMEnv) (data : MMPost) : List BEventData :=
  if data.typ = "system_add_to_channel" then
    match lookupProp data.props "addedUsername", lookupProp data.props "username" with
    | some (PropV.pstr added), some (PropV.pstr adder) =>
        [BEventData.channelAdd (env.getUserByUsername adder)
          [env.getUserByUsername added] data.channelId]
    | _, _ => []
  else if data.typ = "system_remove_from_channel" then
    match lookupProp data.props "removedUsername" with
    | some (PropV.pstr removed) =>
        [BEventData.channelRemove [env.getUserByUsername removed] data.channelId]
    | _ => []
  else []

/-- handleFileEvent (part_000:710-741): when the post carries files, emit one
file_event; for a direct message the receiver is the session owner. -/
def handleFileEvent (env : MMEnv) (channelType : String) (ghost : UserInfo)
    (data : MMPost) : List BEventData :=
  let files := env.getFileLinks data.fileIds
  if files.length > 0 then
    if channelType = "D" then
      [BEventData.fileEvent channelType data.channelId ghost env.meInfo files]
    else
      [BEventData.fileEvent channelType data.channelId ghost ghost files]
  else []

/-- handleWsActionPost (part_000:532-696), as the list of bridge events it
sends on the event channel (its two further side effects, UpdateChannels and
UpdateLastViewed, carry no event). The skip check runs first; then the
message is annotated with the parent post for thread replies, with slack
attachment fallbacks, and an override_username replaces the ghost's nick;
membership system posts turn into wsActionPostJoinLeave's events; a header
change emits a topic event; then the message is split on newlines, "(edited)"
is appended to the last line of an edited post (whose channel type becomes
"D" when its channel name holds "__"), and each non-empty line becomes a
direct_message or channel_message event (a notice when the whole message
mentions @channel/@here/@all); finally an attached-files event follows. -/
def handleWsActionPost (env : MMEnv) (rmsg : WsEvent) : List BEventData :=
  let data := rmsg.post
  if wsActionPostSkip env rmsg then []
  else
    let data :=
      if data.parentId ≠ "" then
        match env.getPost data.parentId with
        | none => data
        | some parentPost =>
            let parentGhost := env.getUser parentPost.userId
            if env.hideReplies then
              { data with message := data.message ++ " (re @" ++ parentGhost.nick ++ ")" }
            else
              { data with message :=
                  data.message ++ " (re @" ++ parentGhost.nick ++ ": " ++
                    parentPost.message ++ ")" }
      else data
    let ghost := env.getUser data.userId
    let ghost := if data.userId = env.meUser then env.meInfo else ghost
    let data :=
      match lookupProp data.props "attachments" with
      | some (PropV.pattach entries) =>
          { data with message :=
              entries.foldl (fun msg f => msg ++ "\n" ++ f) data.message }
      | _ => data
    let ghost :=
      match lookupProp data.props "override_username" with
      | some (PropV.pstr ou) =>
          if ou ≠ "" ∧ validOverrideNick ou = true then { ghost with nick := ou }
          else ghost
      | _ => ghost
    if data.typ = postJoinLeave ∨ data.typ = "system_leave_channel" ∨
        data.typ = "system_join_channel" ∨ data.typ = "system_add_to_channel" ∨
        data.typ = "system_remove_from_channel" then
      wsActionPostJoinLeave env data
    else
      let topicEvents :=
        if data.typ = "system_header_change" then
          match lookupProp data.props "new_header",
              lookupProp data.props "username" with
          | some (PropV.pstr topic), some (PropV.pstr topicuser) =>
              [BEventData.channelTopic topic data.channelId topicuser]
          | _, _ => []
        else []
      let msgs := splitLines data.message
      let channelType := rmsg.channelType.getD ""
      let pair :=
        if msgs.length > 0 ∧ rmsg.event = wsEventPostEdited then
          (msgs.dropLast ++ [(msgs.getLast?.getD "") ++ " (edited)"],
            if strContains (env.getChannelName data.channelId) "__" then "D"
            else channelType)
        else (msgs, channelType)
      let msgs := pair.1
      let channelType := pair.2
      let files := env.getFileLinks data.fileIds
      let lineEvents := msgs.bind (fun msg =>
        if msg = "" then []
        else if channelType = "D" then
          [BEventData.directMessage msg ghost env.meInfo files]
        else if strContains data.message "@channel" ∨
            strContains data.message "@here" ∨
            strContains data.message "@all" then
          [BEventData.channelMessage msg data.channelId ghost "notice"
            channelType files]
        else
          [BEventData.channelMessage msg data.channelId ghost "" channelType files])
      topicEvents ++ lineEvents ++ handleFileEvent env channelType ghost data

/-- MsgChannel / MsgUser (part_000:258-279): the outbound post carries the
marker property "matterircd_"+owner-id set to true; the backend stamps the
authenticated session owner as the post's UserId. -/
def msgChannelPost (meUser channelID text : String) : MMPost :=
  ⟨meUser, "", text, channelID, "", false, 0, 0, [],
    [("matterircd_" ++ meUser, PropV.pbool true)]⟩

end Matterircd

namespace Matterircd

/-- C9: an inbound posted event whose sender is the session owner and whose
post props carry a boolean under the bridge's outbound marker key
"matterircd_"+owner-id is dropped by the adapter: the skip check fires and no
bridge event at all is emitted; in particular every post built by the
adapter's own MsgChannel/MsgUser post API carries that marker and is never
re-delivered. -/
theorem handleWsActionPost_echo_suppressed (env : MMEnv) (rmsg : WsEvent)
    (b : Bool) (hSender : rmsg.post.userId = env.meUser)
    (hMarker : lookupProp rmsg.post.props ("matterircd_" ++ env.meUser) =
      some (PropV.pbool b)) :
    wsActionPostSkip env rmsg = true ∧
    handleWsActionPost env rmsg = [] ∧
    ∀ ev channelID text ct,
      handleWsActionPost env ⟨ev, msgChannelPost env.meUser channelID text, ct⟩ =
        [] := by
  have hskip : ∀ (r : WsEvent) (b' : Bool), r.post.userId = env.meUser →
      lookupProp r.post.props ("matterircd_" ++ env.meUser) =
        some (PropV.pbool b') →
      wsActionPostSkip env r = true := by
    intro r b' hs hm
    simp only [wsActionPostSkip]
    by_cases h1 : r.event = wsEventPostEdited ∧ r.post.hasReactions = true
    · rw [if_pos h1]
    · rw [if_neg h1, if_pos hs, hm]
  have h1 := hskip rmsg b hSender hMarker
  refine ⟨h1, ?_, ?_⟩
  · simp only [handleWsActionPost, h1, if_pos]
  · intro ev channelID text ct
    have hm : lookupProp (msgChannelPost env.meUser channelID text).props
        ("matterircd_" ++ env.meUser) = some (PropV.pbool true) := by
      simp [msgChannelPost, lookupProp, List.find?]
    have h2 := hskip ⟨ev, msgChannelPost env.meUser channelID text, ct⟩ true rfl hm
    simp only [handleWsActionPost, h2, if_pos]

/-- Concrete adapter environment for the C9 witness. -/
def envMM : MMEnv :=
  ⟨"me1", ⟨"me", "me1", "", "", true, "t1"⟩, fun _ => uA, fun _ => uA,
    fun _ => none, fun _ => "#chan", fun l => l, false⟩

/-- Concrete inbound event for the C9 witness: a post the bridge itself sent. -/
def rmsgW : WsEvent := ⟨"posted", msgChannelPost "me1" "cid" "hello", some "O"⟩

/-- Witness for C9 at concrete inputs. -/
theorem handleWsActionPost_echo_suppressed_witness :
    rmsgW.post.userId = envMM.meUser ∧
    wsActionPostSkip envMM rmsgW = true ∧
    handleWsActionPost envMM rmsgW = [] := by
  have h := handleWsActionPost_echo_suppressed envMM rmsgW true rfl (by decide)
  exact ⟨rfl, h.1, h.2.1⟩

end Matterircd

namespace Matterircd

/-! ## MsgSpoofUser (userbridge.go:440-461) -/

/-- Go strings.TrimSpace: drop whitespace from both ends (right first here;
the two orders agree). -/
def trimSpace (s : String) : String :=
  String.mk (((s.data.reverse.dropWhile Char.isWhitespace).reverse).dropWhile
    Char.isWhitespace)

/-- One encoded IRC message of MsgSpoofUser: the sender's nick doubles as the
wire identity's name and user, the command is PRIVMSG towards rcvuser. -/
structure IrcMsg where
  fromNick : String
  fromHost : String
  command : String
  params : List String
  trailing : String
deriving DecidableEq, Repr

/-- MsgSpoofUser (userbridge.go:440-461): word-wrap the message at 440
characters (the wordwrap dependency is external to the repository and is
carried as the function parameter wrap), split on newlines, trim each line,
drop empty lines, and encode each remaining line as a PRIVMSG whose trailing
text is the line plus a newline. -/
def MsgSpoofUser (wrap : String → Nat → String) (sender : UserInfo)
    (rcvuser : String) (msg : String) : List IrcMsg :=
  let msg := wrap msg 440
  let lines := splitLines msg
  lines.bind (fun l0 =>
    let l := trimSpace l0
    if l.length = 0 then []
    else [⟨sender.nick, sender.host, "PRIVMSG", [rcvuser], l ++ "\n"⟩])

theorem trimSpace_head_not_ws (s : String) (h : trimSpace s ≠ "") :
    ∃ c cs, (trimSpace s).data = c :: cs ∧ c.isWhitespace = false := by
  unfold trimSpace at *
  set cs0 := (s.data.reverse.dropWhile Char.isWhitespace).reverse with hcs0
  cases hd : cs0.dropWhile Char.isWhitespace with
  | nil =>
      exfalso
      apply h
      rw [hd]
  | cons c rest =>
      refine ⟨c, rest, rfl, ?_⟩
      have := List.head?_dropWhile_not Char.isWhitespace cs0
      rw [hd] at this
      simpa using this

theorem str_length_eq_zero (s : String) : s.length = 0 ↔ s = "" := by
  cases s with
  | mk data =>
      cases data with
      | nil => simp
      | cons c cs =>
          constructor
          · intro h
            simp [String.length] at h
          · intro h
            have hdata : (c :: cs : List Char) = [] := congrArg String.data h
            simp at hdata

/-- C10: MsgSpoofUser's output is, for every wrap function, exactly the
trimmed non-empty lines of the wrapped-at-440 message, each encoded as a
PRIVMSG with a trailing newline; consequently every emitted message's
trailing text holds a non-whitespace character — an empty or whitespace-only
line is never sent. -/
theorem MsgSpoofUser_lines_spec (wrap : String → Nat → String)
    (sender : UserInfo) (rcvuser msg : String) :
    MsgSpoofUser wrap sender rcvuser msg =
      (((splitLines (wrap msg 440)).map trimSpace).filter
        (fun l => l ≠ "")).map
        (fun l => ⟨sender.nick, sender.host, "PRIVMSG", [rcvuser], l ++ "\n"⟩) ∧
    ∀ m ∈ MsgSpoofUser wrap sender rcvuser msg,
      m.trailing.data.any (fun c => !c.isWhitespace) = true := by
  constructor
  · simp only [MsgSpoofUser]
    induction splitLines (wrap msg 440) with
    | nil => rfl
    | cons l0 rest ih =>
        simp only [List.cons_bind, List.map_cons, List.filter_cons]
        by_cases h : trimSpace l0 = ""
        · rw [h]
          simp [ih]
        · rw [if_neg ((str_length_eq_zero (trimSpace l0)).not.mpr h)]
          simp [h, ih]
  · intro m hm
    simp only [MsgSpoofUser, List.mem_bind] at hm
    obtain ⟨l0, _, hmem⟩ := hm
    by_cases h : (trimSpace l0).length = 0
    · rw [if_pos h] at hmem
      simp at hmem
    · rw [if_neg h] at hmem
      simp only [List.mem_singleton] at hmem
      subst hmem
      have hne : trimSpace l0 ≠ "" := fun hc =>
        h ((str_length_eq_zero (trimSpace l0)).mpr hc)
      obtain ⟨c, cs, hdata, hws⟩ := trimSpace_head_not_ws l0 hne
      show ((trimSpace l0 ++ "\n").data.any fun c => !c.isWhitespace) = true
      rw [String.data_append, hdata]
      simp [hws]

/-- Witness for C10 at concrete inputs: no Prop hypothesis is needed by the
theorem, the instance evaluates the spec on a message with a whitespace-only
line. -/
theorem MsgSpoofUser_lines_spec_witness :
    MsgSpoofUser (fun s _ => s) uA "bob" "hello\n   \nworld" =
      [⟨"a", "", "PRIVMSG", ["bob"], "hello\n"⟩,
        ⟨"a", "", "PRIVMSG", ["bob"], "world\n"⟩] := by
  have h := MsgSpoofUser_lines_spec (fun s _ => s) uA "bob" "hello\n   \nworld"
  rw [h.1]
  decide

end Matterircd
